import Mathlib

/-
Verification of the exchange settlement examples of the
highload-wallet-contract-v3 repository: deposit monitoring
(exchange-deposit-monitor), batch withdrawals (exchange-batch-withdrawal)
and per-user deposit-address allocation (exchange-address-generator).
JavaScript `Map`s are embedded as insertion-ordered association lists,
`Set`s as insertion-ordered duplicate-free lists, and the observable
side effects of the in-memory database classes (credits, failure marks,
batch submissions) as explicit event logs in the state.
-/

/-- Insertion-ordered map update, the embedding of JavaScript `Map.set`:
replace in place when the key is present, append otherwise. -/
def mapSet {α : Type} (m : List (String × α)) (k : String) (v : α) : List (String × α) :=
  match m with
  | [] => [(k, v)]
  | p :: rest => if p.1 = k then (k, v) :: rest else p :: mapSet rest k v

/-- Map lookup, the embedding of JavaScript `Map.get` (first matching key). -/
def mapGet {α : Type} (m : List (String × α)) (k : String) : Option α :=
  match m with
  | [] => none
  | p :: rest => if p.1 = k then some p.2 else mapGet rest k

/-- Map removal, the embedding of JavaScript `Map.delete`. -/
def mapDelete {α : Type} (m : List (String × α)) (k : String) : List (String × α) :=
  m.filter (fun p => p.1 ≠ k)

/-- Set insertion, the embedding of JavaScript `Set.add`. -/
def setAdd (s : List String) (x : String) : List String :=
  if x ∈ s then s else s ++ [x]

/-- A keyed store is well formed when its keys are duplicate-free and every
entry is stored under the key field of its value. Every store reachable
through the database classes of the examples satisfies this. -/
def KeyedBy {α : Type} (key : α → String) (m : List (String × α)) : Prop :=
  (m.map Prod.fst).Nodup ∧ ∀ p ∈ m, key p.2 = p.1

instance {α : Type} (key : α → String) (m : List (String × α)) :
    Decidable (KeyedBy key m) := by
  unfold KeyedBy
  infer_instance

/- ## Deposit monitor (`DepositMonitor` / `DepositDatabase`)

The stream-facing half of the deposit pipeline: `processTransaction`
classifies one observed transaction, `processPendingDeposits` advances
confirmation tracking and credits matured deposits. -/

/-- `MIN_CONFIRMATIONS`: minimum block confirmations before crediting. -/
def MIN_CONFIRMATIONS : Nat := 3

/-- `MIN_DEPOSIT_AMOUNT`: minimum of 1 TON, in nanotons. -/
def MIN_DEPOSIT_AMOUNT : Nat := 1000000000

/-- The `UserDeposit` record of the deposit monitor. -/
structure UserDeposit where
  userId : String
  transactionHash : String
  amount : Nat
  sender : String
  timestamp : Nat
  confirmations : Nat
deriving Repr, DecidableEq

/-- One call to `DepositDatabase.creditUserAccount`, recorded as an event. -/
structure CreditEvent where
  userId : String
  amount : Nat
  txHash : String
deriving Repr, DecidableEq

/-- The state held by `DepositDatabase`: the processed-transaction set, the
pending-deposit map keyed by transaction hash, and the log of credits
applied to user accounts. -/
structure DepositState where
  processedTxs : List String
  pendingDeposits : List (String × UserDeposit)
  credits : List CreditEvent
deriving Repr, DecidableEq

/-- The view of an on-chain transaction that `processTransaction` reads:
its hash, whether the in-message is an internal transfer, its sender and
value, the aborted/bounced flag, and the text comment extracted by
`extractComment` (`none` when there is no text comment). -/
structure Tx where
  hash : String
  isInternal : Bool
  sender : String
  amount : Nat
  aborted : Bool
  comment : Option String
deriving Repr, DecidableEq

/-- JavaScript truthiness of a `string | null` value: `null` and the empty
string are falsy. -/
def jsTruthy : Option String → Bool
  | none => false
  | some s => !(s == "")

/-- `DepositDatabase.isTransactionProcessed`. -/
def isTransactionProcessed (st : DepositState) (txHash : String) : Bool :=
  txHash ∈ st.processedTxs

/-- `DepositDatabase.markTransactionProcessed`. -/
def markTransactionProcessed (st : DepositState) (txHash : String) : DepositState :=
  { st with processedTxs := setAdd st.processedTxs txHash }

/-- `DepositDatabase.creditUserAccount`, recorded as an appended event. -/
def creditUserAccount (st : DepositState) (userId : String) (amount : Nat)
    (txHash : String) : DepositState :=
  { st with credits := st.credits ++ [{ userId := userId, amount := amount, txHash := txHash }] }

/-- `DepositDatabase.getUserByMemo`: strips a leading `DEPOSIT:` tag
(`memo.startsWith` plus `memo.substring(8)`, taken at the character
level), otherwise returns the memo itself. -/
def getUserByMemo (memo : String) : String :=
  if memo.data.take 8 = ("DEPOSIT:").data then String.mk (memo.data.drop 8) else memo

/-- `DepositDatabase.addPendingDeposit`. -/
def addPendingDeposit (st : DepositState) (d : UserDeposit) : DepositState :=
  { st with pendingDeposits := mapSet st.pendingDeposits d.transactionHash d }

/-- `DepositDatabase.getPendingDeposits`: the values of the pending map in
insertion order. -/
def getPendingDeposits (st : DepositState) : List UserDeposit :=
  st.pendingDeposits.map Prod.snd

/-- `DepositDatabase.removePendingDeposit`. -/
def removePendingDeposit (st : DepositState) (txHash : String) : DepositState :=
  { st with pendingDeposits := mapDelete st.pendingDeposits txHash }

/-- The user-resolution step of `DepositMonitor.processTransaction`
(method 1, lookup by sender address; method 2, lookup by memo when
method 1 produced nothing truthy and a comment is present). -/
def resolveUserId (lookupUserByAddress : String → Option String) (tx : Tx) : Option String :=
  let userId0 := lookupUserByAddress tx.sender
  if jsTruthy userId0 = false ∧ jsTruthy tx.comment = true
  then some (getUserByMemo (tx.comment.getD ("")))
  else userId0

/-- `DepositMonitor.processTransaction`. `lookupUserByAddress` stands for
`DepositDatabase.getUserByAddress`, which in the source is a placeholder
returning `null` whose documented duty is the address-to-user lookup of
the allocated deposit addresses; it is kept as a parameter. `now` is the
`Date.now()` timestamp of the observation. -/
def processTransaction (lookupUserByAddress : String → Option String) (now : Nat)
    (st : DepositState) (tx : Tx) : DepositState :=
  if isTransactionProcessed st tx.hash then st
  else if tx.isInternal = false then st
  else if tx.amount < MIN_DEPOSIT_AMOUNT then markTransactionProcessed st tx.hash
  else if tx.aborted = true then markTransactionProcessed st tx.hash
  else
    let userId := resolveUserId lookupUserByAddress tx
    if jsTruthy userId = false then markTransactionProcessed st tx.hash
    else
      addPendingDeposit st
        { userId := userId.getD (""), transactionHash := tx.hash, amount := tx.amount,
          sender := tx.sender, timestamp := now, confirmations := 0 }

/-- The body of the loop of `DepositMonitor.processPendingDeposits` for one
pending deposit: estimate confirmations from elapsed time (about 5 s
per block) and, at or above `MIN_CONFIRMATIONS`, credit the user, mark
the hash processed and drop the record from the pending map. -/
def processOnePending (now : Nat) (st : DepositState) (d : UserDeposit) : DepositState :=
  let timeSinceDeposit := now - d.timestamp
  let estimatedConfirmations := timeSinceDeposit / 5000
  if MIN_CONFIRMATIONS ≤ estimatedConfirmations then
    removePendingDeposit
      (markTransactionProcessed
        (creditUserAccount st d.userId d.amount d.transactionHash)
        d.transactionHash)
      d.transactionHash
  else st

/-- `DepositMonitor.processPendingDeposits`: iterate the loop body over the
snapshot of pending deposits taken at entry. -/
def processPendingDeposits (now : Nat) (st : DepositState) : DepositState :=
  (getPendingDeposits st).foldl (processOnePending now) st

/-- How many times the account credit for transaction hash `h` has been
applied in state `st`. -/
def creditCount (st : DepositState) (h : String) : Nat :=
  (st.credits.filter (fun c => c.txHash == h)).length

/-- Well-formedness of the pending-deposit store: keyed by the transaction
hash of the stored record, with duplicate-free keys. -/
def DepositWF (st : DepositState) : Prop :=
  KeyedBy (fun d => d.transactionHash) st.pendingDeposits

instance (st : DepositState) : Decidable (DepositWF st) := by
  unfold DepositWF
  infer_instance

/- ## Concrete inputs used by witnesses and counterexamples -/

/-- The state of a freshly constructed `DepositDatabase`. -/
def emptyDepositState : DepositState :=
  { processedTxs := [], pendingDeposits := [], credits := [] }

/-- An address book with no allocated deposit addresses: the literal
behavior of the `getUserByAddress` placeholder in the source. -/
def noAddressLookup : String → Option String := fun _ => none

/-- An address book in which sender `s1` is the allocated deposit address
of user `alice`. -/
def oneAddressLookup : String → Option String :=
  fun a => if a = "s1" then some ("alice") else none

/-- A 1 TON internal deposit from `s1` carrying a `DEPOSIT:alice` comment. -/
def sampleDepositTx : Tx :=
  { hash := "t1", isInternal := true, sender := "s1", amount := 1000000000,
    aborted := false, comment := some ("DEPOSIT:alice") }

/-- The same deposit one nanoton below the configured minimum. -/
def smallDepositTx : Tx :=
  { sampleDepositTx with hash := "t2", amount := 999999999 }

/-- A pending-deposit record matured past the confirmation threshold. -/
def dep1 : UserDeposit :=
  { userId := "alice", transactionHash := "t1", amount := 1000000000,
    sender := "s1", timestamp := 0, confirmations := 0 }

/-- A deposit-monitor state holding exactly the outstanding record `dep1`. -/
def pendingOneState : DepositState :=
  { processedTxs := [], pendingDeposits := [("t1", dep1)], credits := [] }

/- ## Query-id sequencer (`getNextQueryId` over the `HighloadQueryId` wrapper) -/

/-- Modelled from the spec: the documented ceiling of 8,380,415 query ids
representable per timeout window for the referenced wallet generation. -/
def QUERY_ID_CEILING : Nat := 8380415

/-- Modelled from the spec: the `HighloadQueryId` class of the wrapper
layer, which is not under `src/`. It holds a position within an ordered,
bounded id space tied to one timeout window; the shift/bit coordinate
pair is an encoding of this position. -/
structure HighloadQueryId where
  position : Nat
deriving Repr, DecidableEq

/-- Modelled from the spec: `hasNext()` is a pure capacity check with no
side effect. -/
def HighloadQueryId.hasNext (q : HighloadQueryId) : Bool :=
  q.position < QUERY_ID_CEILING

/-- Modelled from the spec: `getNext()` yields the sequencer advanced by
one position. -/
def HighloadQueryId.getNext (q : HighloadQueryId) : HighloadQueryId :=
  { position := q.position + 1 }

/-- Modelled from the spec: `getQueryId()` exposes the ordered opaque
token of the position. -/
def HighloadQueryId.getQueryId (q : HighloadQueryId) : Nat :=
  q.position

/-- The message of the error thrown by `getNextQueryId` at exhaustion. -/
def queryIdExhaustedMsg : String :=
  "Query ID exhausted. Wait for timeout period to reset."

/-- `BatchWithdrawalProcessor.getNextQueryId`: when `lastQueryId.hasNext()`
holds, advance `lastQueryId` and return it; otherwise throw. The result
carries the returned id and the updated `lastQueryId` field. -/
def getNextQueryId (last : HighloadQueryId) : Except String (HighloadQueryId × HighloadQueryId) :=
  if last.hasNext then
    let q := last.getNext
    Except.ok (q, q)
  else
    Except.error (queryIdExhaustedMsg)

/-- `n` successive calls of `getNextQueryId`, threading the `lastQueryId`
state and collecting the returned ids in call order. -/
def runNextQueryIds : HighloadQueryId → Nat → Except String (List HighloadQueryId × HighloadQueryId)
  | last, 0 => Except.ok ([], last)
  | last, n + 1 =>
    match getNextQueryId last with
    | Except.error e => Except.error e
    | Except.ok (q, st) =>
      match runNextQueryIds st n with
      | Except.error e => Except.error e
      | Except.ok (ids, fin) => Except.ok (q :: ids, fin)

/- ## Batch withdrawals (`BatchWithdrawalProcessor` / `WithdrawalDatabase`) -/

/-- `MAX_BATCH_SIZE`: maximum messages per batch. -/
def MAX_BATCH_SIZE : Nat := 254

/-- The `WithdrawalRequest` record of the batch processor. -/
structure WithdrawalRequest where
  userId : String
  address : String
  amount : Nat
  withdrawalId : String
deriving Repr, DecidableEq

/-- One outbound `OutActionSendMsg` as built by `createWithdrawalMessages`:
the parsed destination, the transferred value, and the reconciliation
text comment tied to the withdrawal id. -/
structure OutMsg where
  dest : String
  value : Nat
  body : String
deriving Repr, DecidableEq

/-- The state of `WithdrawalDatabase` and of the processor object: the
pending map keyed by withdrawal id, the processed set, the log of
`markWithdrawalFailed` calls (id and reason; in the source this marking
is delegated to the exchange database), the `lastQueryId` field, and
the log of `sendBatch` submissions. -/
structure WithdrawalState where
  pendingWithdrawals : List (String × WithdrawalRequest)
  processedWithdrawals : List String
  failedWithdrawals : List (String × String)
  lastQueryId : HighloadQueryId
  sentBatches : List (HighloadQueryId × List OutMsg)
deriving Repr, DecidableEq

/-- `WithdrawalDatabase.getPendingWithdrawals`: the first `limit` pending
values in insertion order. -/
def getPendingWithdrawals (st : WithdrawalState) (limit : Nat) : List WithdrawalRequest :=
  (st.pendingWithdrawals.map Prod.snd).take limit

/-- `WithdrawalDatabase.markWithdrawalCompleted` (the simulated transaction
hash it receives only reaches the console). -/
def markWithdrawalCompleted (st : WithdrawalState) (withdrawalId : String) : WithdrawalState :=
  { st with
    processedWithdrawals := setAdd st.processedWithdrawals withdrawalId,
    pendingWithdrawals := mapDelete st.pendingWithdrawals withdrawalId }

/-- `WithdrawalDatabase.markWithdrawalFailed`, recorded as an event. -/
def markWithdrawalFailed (st : WithdrawalState) (withdrawalId : String)
    (err : String) : WithdrawalState :=
  { st with failedWithdrawals := st.failedWithdrawals ++ [(withdrawalId, err)] }

/-- `WithdrawalDatabase.addTestWithdrawal`. -/
def addTestWithdrawal (st : WithdrawalState) (r : WithdrawalRequest) : WithdrawalState :=
  { st with pendingWithdrawals := mapSet st.pendingWithdrawals r.withdrawalId r }

/-- The message built for one withdrawal whose address parsed to `dest`. -/
def mkWithdrawalMsg (dest : String) (w : WithdrawalRequest) : OutMsg :=
  { dest := dest, value := w.amount, body := "Withdrawal: " ++ w.withdrawalId }

/-- `BatchWithdrawalProcessor.createWithdrawalMessages`. `parseAddr` stands
for `Address.parse` of the external library — `some` of the parsed form
on success, `none` when parsing throws. A parse failure marks only that
withdrawal failed and continues with the rest. -/
def createWithdrawalMessages (parseAddr : String → Option String)
    (st : WithdrawalState) (ws : List WithdrawalRequest) : List OutMsg × WithdrawalState :=
  ws.foldl
    (fun acc w =>
      match parseAddr w.address with
      | some dest => (acc.1 ++ [mkWithdrawalMsg dest w], acc.2)
      | none => (acc.1, markWithdrawalFailed acc.2 w.withdrawalId ("Invalid address")))
    ([], st)

/-- `HighloadWalletV3.sendBatch` as observed from this layer: the batch is
submitted as one outbound operation tagged with its query id. -/
def sendBatch (st : WithdrawalState) (q : HighloadQueryId) (msgs : List OutMsg) : WithdrawalState :=
  { st with sentBatches := st.sentBatches ++ [(q, msgs)] }

/-- `BatchWithdrawalProcessor.processBatch`: fetch up to `MAX_BATCH_SIZE`
pending withdrawals, build messages (`markWithdrawalProcessing` only
logs), and when any message was built obtain one query id, submit the
batch, and mark every fetched withdrawal completed. A query-id
exhaustion error propagates out of the call. -/
def processBatch (parseAddr : String → Option String) (st : WithdrawalState) :
    Except String WithdrawalState :=
  let withdrawals := getPendingWithdrawals st MAX_BATCH_SIZE
  if withdrawals.length = 0 then Except.ok st
  else
    let res := createWithdrawalMessages parseAddr st withdrawals
    if res.1.length = 0 then Except.ok res.2
    else
      match getNextQueryId res.2.lastQueryId with
      | Except.error e => Except.error e
      | Except.ok (queryId, last') =>
        let st2 := sendBatch { res.2 with lastQueryId := last' } queryId res.1
        Except.ok (withdrawals.foldl (fun s w => markWithdrawalCompleted s w.withdrawalId) st2)

/-- Well-formedness of the pending-withdrawal store: keyed by the
withdrawal id of the stored request, with duplicate-free keys. -/
def WithdrawalWF (st : WithdrawalState) : Prop :=
  KeyedBy (fun w => w.withdrawalId) st.pendingWithdrawals

instance (st : WithdrawalState) : Decidable (WithdrawalWF st) := by
  unfold WithdrawalWF
  infer_instance

/-- An address parser that accepts every destination. -/
def allGoodParse : String → Option String := fun s => some s

/-- An address parser that rejects exactly the destination `bad`. -/
def oneBadParse : String → Option String := fun s => if s = "bad" then none else some s

/-- Key generator for the 300-entry witness store; pairwise distinct by
length. -/
def wKey (i : Nat) : String := String.mk (List.replicate i 'a')

/-- A 300-entry pending-withdrawal store. -/
def w300 : List (String × WithdrawalRequest) :=
  (List.range 300).map
    (fun i => (wKey i,
      { userId := wKey i, address := "A", amount := 1, withdrawalId := wKey i }))

/-- A processor state with 300 pending withdrawals and a fresh sequencer. -/
def pending300 : WithdrawalState :=
  { pendingWithdrawals := w300, processedWithdrawals := [], failedWithdrawals := [],
    lastQueryId := { position := 0 }, sentBatches := [] }

/-- A processor state with one good and one unparsable withdrawal. -/
def twoPendingState : WithdrawalState :=
  { pendingWithdrawals :=
      [("wd1", { userId := "u1", address := "good", amount := 5, withdrawalId := "wd1" }),
       ("wd2", { userId := "u2", address := "bad", amount := 7, withdrawalId := "wd2" })],
    processedWithdrawals := [], failedWithdrawals := [],
    lastQueryId := { position := 0 }, sentBatches := [] }

/- ## Deposit-address generator (`ExchangeAddressGenerator` / `AddressMappingDatabase`) -/

/-- The state of `AddressMappingDatabase`: the three mapping stores. -/
structure GenState where
  userToAddress : List (String × String)
  addressToUser : List (String × String)
  userToSubwalletId : List (String × Nat)
deriving Repr, DecidableEq

/-- `AddressMappingDatabase.createUserAddress`. -/
def createUserAddress (st : GenState) (userId address : String)
    (subwalletId : Nat) : GenState :=
  { userToAddress := mapSet st.userToAddress userId address,
    addressToUser := mapSet st.addressToUser address userId,
    userToSubwalletId := mapSet st.userToSubwalletId userId subwalletId }

/-- `AddressMappingDatabase.getAddressForUser`, with the `|| null`
coalescing of the source: a missing or empty stored address yields
`null`. -/
def getAddressForUser (st : GenState) (userId : String) : Option String :=
  match mapGet st.userToAddress userId with
  | some a => if a = "" then none else some a
  | none => none

/-- `AddressMappingDatabase.getAllMappings`: each user-address entry joined
with its subwallet id, in insertion order, skipping users without one. -/
def getAllMappings (st : GenState) : List (String × String × Nat) :=
  st.userToAddress.filterMap
    (fun p => (mapGet st.userToSubwalletId p.1).map (fun s => (p.1, p.2, s)))

/-- The subwallet ids the collision check of the derivation loop scans. -/
def allocatedSubwalletIds (st : GenState) : List Nat :=
  (getAllMappings st).map (fun m => m.2.2)

/-- `maxAttempts` of the derivation loop. -/
def maxAttempts : Nat := 1000

/-- One candidate of the derivation loop: the first four bytes of
`sha256(userId + baseSubwalletId + nonce)` read as an unsigned 32-bit
integer — `hashFn` stands for this external digest, already combined
with the generator's base id — with the zero value replaced by the
base subwallet id. -/
def subwalletCandidate (hashFn : String → Nat → Nat) (baseSubwalletId : Nat)
    (userId : String) (nonce : Nat) : Nat :=
  let h := hashFn userId nonce
  if h = 0 then baseSubwalletId else h

/-- The body of the do/while derivation loop of `generateDepositAddress`,
structurally recursive on the remaining attempt budget
`maxAttempts - (nonce + 1)`: the source computes the candidate,
increments `nonce`, throws once the incremented `nonce` reaches
`maxAttempts` (so budget zero means the throw fires here), and retries
while the candidate collides with an allocated subwallet id. -/
def findSubwalletGo (hashFn : String → Nat → Nat) (baseSubwalletId : Nat)
    (allocated : List Nat) (userId : String) : Nat → Nat → Option Nat
  | _nonce, 0 => none
  | nonce, remaining + 1 =>
    let cand := subwalletCandidate hashFn baseSubwalletId userId nonce
    if cand ∈ allocated then
      findSubwalletGo hashFn baseSubwalletId allocated userId (nonce + 1) remaining
    else some cand

/-- The derivation loop started at `nonce`; `none` is the
`AllocationExhausted` throw. -/
def findSubwalletId (hashFn : String → Nat → Nat) (baseSubwalletId : Nat)
    (allocated : List Nat) (userId : String) (nonce : Nat) : Option Nat :=
  findSubwalletGo hashFn baseSubwalletId allocated userId nonce
    (maxAttempts - (nonce + 1))

/-- `ExchangeAddressGenerator.generateDepositAddress`: return the stored
address for an existing user without re-deriving; otherwise run the
nonce-incrementing collision-resolution loop, build the wallet address
for the fresh subwallet id (`addrOf` stands for
`HighloadWalletV3.createFromConfig` plus `.address.toString()`, a
deterministic function of the subwallet id under the generator's fixed
public key, code and timeout), store the mapping and return the
address. `none` is the `AllocationExhausted` throw. The duplicated
`const` re-derivation that follows the loop in the source file is an
inert leftover (it would shadow `let subwalletId` and cannot compile,
and the spec describes the loop), so the loop result is what is
stored. -/
def generateDepositAddress (hashFn : String → Nat → Nat) (addrOf : Nat → String)
    (baseSubwalletId : Nat) (st : GenState) (userId : String) :
    Option (String × GenState) :=
  match getAddressForUser st userId with
  | some existingAddress => some (existingAddress, st)
  | none =>
    match findSubwalletId hashFn baseSubwalletId (allocatedSubwalletIds st) userId 0 with
    | none => none
    | some subwalletId =>
      let address := addrOf subwalletId
      some (address, createUserAddress st userId address subwalletId)

/-- A stand-in digest for the witnesses. -/
def demoHash : String → Nat → Nat := fun u n => u.data.length + n + 1

/-- A stand-in address derivation for the witnesses (deliberately
non-injective: pair distinctness must come from the subwallet ids). -/
def demoAddr : Nat → String := fun _ => "ADDR"

/-- The state of a freshly constructed `AddressMappingDatabase`. -/
def emptyGenState : GenState :=
  { userToAddress := [], addressToUser := [], userToSubwalletId := [] }

/-- The generator state after allocating user `x` under `demoHash` and
`demoAddr`. -/
def genState1 : GenState :=
  { userToAddress := [("x", "ADDR")], addressToUser := [("ADDR", "x")],
    userToSubwalletId := [("x", 2)] }

/-- The generator state after then allocating user `yy`. -/
def genState2 : GenState :=
  { userToAddress := [("x", "ADDR"), ("yy", "ADDR")],
    addressToUser := [("ADDR", "yy")],
    userToSubwalletId := [("x", 2), ("yy", 3)] }

/- ## Library lemmas about the map/set embeddings -/

theorem mapGet_mapSet_self {α : Type} (m : List (String × α)) (k : String) (v : α) :
    mapGet (mapSet m k v) k = some v := by
  induction m with
  | nil => simp [mapSet, mapGet]
  | cons p rest ih =>
    by_cases h : p.1 = k <;> simp [mapSet, mapGet, h, ih]

theorem mapGet_mapSet_ne {α : Type} (m : List (String × α)) (k k' : String) (v : α)
    (h : k' ≠ k) : mapGet (mapSet m k v) k' = mapGet m k' := by
  induction m with
  | nil => simp [mapSet, mapGet, Ne.symm h]
  | cons p rest ih =>
    by_cases hp : p.1 = k
    · have hq : p.1 ≠ k' := fun hh => h (hh ▸ hp)
      simp [mapSet, mapGet, hp, hq, Ne.symm h]
    · simp [mapSet, mapGet, hp, ih]

theorem mapSet_idem {α : Type} (m : List (String × α)) (k : String) (v : α) :
    mapSet (mapSet m k v) k v = mapSet m k v := by
  induction m with
  | nil => simp [mapSet]
  | cons p rest ih =>
    by_cases h : p.1 = k <;> simp [mapSet, h, ih]

theorem mapGet_eq_none_iff {α : Type} (m : List (String × α)) (k : String) :
    mapGet m k = none ↔ k ∉ m.map Prod.fst := by
  induction m with
  | nil => simp [mapGet]
  | cons p rest ih =>
    by_cases h : p.1 = k
    · simp [mapGet, h]
    · simp [mapGet, h, ih, Ne.symm h]

theorem mem_of_mapGet_eq_some {α : Type} {m : List (String × α)} {k : String} {v : α}
    (h : mapGet m k = some v) : (k, v) ∈ m := by
  induction m with
  | nil => simp [mapGet] at h
  | cons p rest ih =>
    obtain ⟨a, b⟩ := p
    by_cases hp : a = k
    · simp [mapGet, hp] at h
      subst hp
      subst h
      exact List.mem_cons_self _ _
    · simp [mapGet, hp] at h
      exact List.mem_cons_of_mem _ (ih h)

theorem mapGet_mapDelete_self {α : Type} (m : List (String × α)) (k : String) :
    mapGet (mapDelete m k) k = none := by
  induction m with
  | nil => simp [mapDelete, mapGet]
  | cons p rest ih =>
    by_cases hp : p.1 = k
    · simpa [mapDelete, List.filter_cons, hp] using ih
    · simpa [mapDelete, List.filter_cons, hp, mapGet] using ih

theorem mapDelete_sublist {α : Type} (m : List (String × α)) (k : String) :
    List.Sublist (mapDelete m k) m :=
  List.filter_sublist m

theorem mapGet_none_mapDelete {α : Type} (m : List (String × α)) (k k' : String)
    (h : mapGet m k = none) : mapGet (mapDelete m k') k = none := by
  rw [mapGet_eq_none_iff] at h ⊢
  intro hmem
  exact h (((mapDelete_sublist m k').map Prod.fst).subset hmem)

theorem mapGet_mapDelete_ne {α : Type} (m : List (String × α)) (k k' : String)
    (h : k ≠ k') : mapGet (mapDelete m k') k = mapGet m k := by
  induction m with
  | nil => simp [mapDelete, mapGet]
  | cons p rest ih =>
    by_cases hq : p.1 = k'
    · have hpk : p.1 ≠ k := fun hh => h (hh ▸ hq)
      simpa [mapDelete, List.filter_cons, hq, mapGet, hpk, h, Ne.symm h] using ih
    · by_cases hp : p.1 = k
      · simp [mapDelete, List.filter_cons, hq, mapGet, hp, h, Ne.symm h]
      · simpa [mapDelete, List.filter_cons, hq, mapGet, hp] using ih

theorem mem_setAdd_iff (s : List String) (x y : String) :
    x ∈ setAdd s y ↔ x ∈ s ∨ x = y := by
  by_cases hy : y ∈ s
  · simp only [setAdd, if_pos hy]
    constructor
    · exact Or.inl
    · rintro (h | rfl)
      · exact h
      · exact hy
  · simp [setAdd, hy]

theorem setAdd_mem_self (s : List String) (x : String) : x ∈ setAdd s x :=
  (mem_setAdd_iff s x x).mpr (Or.inr rfl)

theorem mem_setAdd_of_mem {s : List String} {x : String} (y : String) (h : x ∈ s) :
    x ∈ setAdd s y :=
  (mem_setAdd_iff s x y).mpr (Or.inl h)

/- ## Branch characterizations of `processTransaction` -/

theorem jsTruthy_some_iff (s : String) : jsTruthy (some s) = true ↔ s ≠ "" := by
  simp [jsTruthy]

theorem processTransaction_processed (l : String → Option String) (now : Nat)
    (st : DepositState) (tx : Tx) (h : isTransactionProcessed st tx.hash = true) :
    processTransaction l now st tx = st := by
  simp [processTransaction, h]

theorem processTransaction_not_internal (l : String → Option String) (now : Nat)
    (st : DepositState) (tx : Tx) (h : isTransactionProcessed st tx.hash = false)
    (h2 : tx.isInternal = false) :
    processTransaction l now st tx = st := by
  simp [processTransaction, h, h2]

theorem processTransaction_small (l : String → Option String) (now : Nat)
    (st : DepositState) (tx : Tx) (h : isTransactionProcessed st tx.hash = false)
    (h2 : tx.isInternal = true) (h3 : tx.amount < MIN_DEPOSIT_AMOUNT) :
    processTransaction l now st tx = markTransactionProcessed st tx.hash := by
  simp [processTransaction, h, h2, h3]

theorem processTransaction_aborted (l : String → Option String) (now : Nat)
    (st : DepositState) (tx : Tx) (h : isTransactionProcessed st tx.hash = false)
    (h2 : tx.isInternal = true) (h3 : ¬ tx.amount < MIN_DEPOSIT_AMOUNT)
    (h4 : tx.aborted = true) :
    processTransaction l now st tx = markTransactionProcessed st tx.hash := by
  simp [processTransaction, h, h2, h3, h4]

theorem processTransaction_unresolved (l : String → Option String) (now : Nat)
    (st : DepositState) (tx : Tx) (h : isTransactionProcessed st tx.hash = false)
    (h2 : tx.isInternal = true) (h3 : ¬ tx.amount < MIN_DEPOSIT_AMOUNT)
    (h4 : tx.aborted = false) (h5 : jsTruthy (resolveUserId l tx) = false) :
    processTransaction l now st tx = markTransactionProcessed st tx.hash := by
  simp [processTransaction, h, h2, h3, h4, h5]

theorem processTransaction_resolved (l : String → Option String) (now : Nat)
    (st : DepositState) (tx : Tx) (h : isTransactionProcessed st tx.hash = false)
    (h2 : tx.isInternal = true) (h3 : ¬ tx.amount < MIN_DEPOSIT_AMOUNT)
    (h4 : tx.aborted = false) (h5 : jsTruthy (resolveUserId l tx) = true) :
    processTransaction l now st tx
      = addPendingDeposit st
          { userId := (resolveUserId l tx).getD (""), transactionHash := tx.hash,
            amount := tx.amount, sender := tx.sender, timestamp := now,
            confirmations := 0 } := by
  simp [processTransaction, h, h2, h3, h4, h5]

theorem isProcessed_mark (st : DepositState) (h : String) :
    isTransactionProcessed (markTransactionProcessed st h) h = true := by
  simp [isTransactionProcessed, markTransactionProcessed]
  exact setAdd_mem_self _ _

theorem addPendingDeposit_idem (st : DepositState) (d : UserDeposit) :
    addPendingDeposit (addPendingDeposit st d) d = addPendingDeposit st d := by
  simp [addPendingDeposit, mapSet_idem]

/-- C3 fails as stated on the code: observing the same not-yet-credited
1 TON deposit at times 0 and 5000 leaves a different pending-deposit
store than observing it once — the second observation re-inserts the
record with its timestamp re-set, postponing the confirmation clock. -/
theorem observe_twice_pending_differs :
    (processTransaction noAddressLookup 5000
        (processTransaction noAddressLookup 0 emptyDepositState sampleDepositTx)
        sampleDepositTx).pendingDeposits
      ≠ (processTransaction noAddressLookup 0 emptyDepositState sampleDepositTx).pendingDeposits := by
  decide

/-- C3 (amended): re-observing the same transaction is a no-op on the
processed-transaction set and on the applied credits unconditionally,
and on the whole store (pending deposits included) whenever the repeat
observation carries the same observation timestamp; only the pending
record's timestamp can differ, and only for a not-yet-credited deposit
re-observed at a later time. -/
theorem observe_idempotent (l : String → Option String) (t t' : Nat)
    (st : DepositState) (tx : Tx) :
    processTransaction l t (processTransaction l t st tx) tx
        = processTransaction l t st tx
    ∧ (processTransaction l t' (processTransaction l t st tx) tx).processedTxs
        = (processTransaction l t st tx).processedTxs
    ∧ (processTransaction l t' (processTransaction l t st tx) tx).credits
        = (processTransaction l t st tx).credits := by
  by_cases h1 : isTransactionProcessed st tx.hash = true
  · rw [processTransaction_processed l t st tx h1]
    exact ⟨processTransaction_processed l t st tx h1,
      by rw [processTransaction_processed l t' st tx h1],
      by rw [processTransaction_processed l t' st tx h1]⟩
  · have h1' : isTransactionProcessed st tx.hash = false := by simpa using h1
    by_cases h2 : tx.isInternal = true
    · by_cases h3 : tx.amount < MIN_DEPOSIT_AMOUNT
      · rw [processTransaction_small l t st tx h1' h2 h3]
        have hp := isProcessed_mark st tx.hash
        exact ⟨processTransaction_processed l t _ tx hp,
          by rw [processTransaction_processed l t' _ tx hp],
          by rw [processTransaction_processed l t' _ tx hp]⟩
      · by_cases h4 : tx.aborted = true
        · rw [processTransaction_aborted l t st tx h1' h2 h3 h4]
          have hp := isProcessed_mark st tx.hash
          exact ⟨processTransaction_processed l t _ tx hp,
            by rw [processTransaction_processed l t' _ tx hp],
            by rw [processTransaction_processed l t' _ tx hp]⟩
        · have h4' : tx.aborted = false := by simpa using h4
          by_cases h5 : jsTruthy (resolveUserId l tx) = true
          · rw [processTransaction_resolved l t st tx h1' h2 h3 h4' h5]
            refine ⟨?_, ?_, ?_⟩
            · rw [processTransaction_resolved l t
                  (addPendingDeposit st
                    { userId := (resolveUserId l tx).getD (""), transactionHash := tx.hash,
                      amount := tx.amount, sender := tx.sender, timestamp := t,
                      confirmations := 0 }) tx h1' h2 h3 h4' h5]
              exact addPendingDeposit_idem _ _
            · rw [processTransaction_resolved l t'
                  (addPendingDeposit st
                    { userId := (resolveUserId l tx).getD (""), transactionHash := tx.hash,
                      amount := tx.amount, sender := tx.sender, timestamp := t,
                      confirmations := 0 }) tx h1' h2 h3 h4' h5]
              rfl
            · rw [processTransaction_resolved l t'
                  (addPendingDeposit st
                    { userId := (resolveUserId l tx).getD (""), transactionHash := tx.hash,
                      amount := tx.amount, sender := tx.sender, timestamp := t,
                      confirmations := 0 }) tx h1' h2 h3 h4' h5]
              rfl
          · have h5' : jsTruthy (resolveUserId l tx) = false := by simpa using h5
            rw [processTransaction_unresolved l t st tx h1' h2 h3 h4' h5']
            have hp := isProcessed_mark st tx.hash
            exact ⟨processTransaction_processed l t _ tx hp,
              by rw [processTransaction_processed l t' _ tx hp],
              by rw [processTransaction_processed l t' _ tx hp]⟩
    · have h2' : tx.isInternal = false := by simpa using h2
      rw [processTransaction_not_internal l t st tx h1' h2']
      exact ⟨processTransaction_not_internal l t st tx h1' h2',
        by rw [processTransaction_not_internal l t' st tx h1' h2'],
        by rw [processTransaction_not_internal l t' st tx h1' h2']⟩

/-- C7: for a deposit that passes the processed, internal, amount and
aborted checks, the owning user is resolved first by exact sender-address
match against the allocated deposit addresses; else, when a text comment
is present, by the recognized memo format; and when neither method
yields a (truthy) user the deposit is rejected — marked processed with
no credit applied and no pending record stored. -/
theorem deposit_user_resolution_order (l : String → Option String) (now : Nat)
    (st : DepositState) (tx : Tx)
    (h1 : isTransactionProcessed st tx.hash = false)
    (h2 : tx.isInternal = true)
    (h3 : ¬ tx.amount < MIN_DEPOSIT_AMOUNT)
    (h4 : tx.aborted = false) :
    (jsTruthy (l tx.sender) = true →
        processTransaction l now st tx
          = addPendingDeposit st
              { userId := (l tx.sender).getD (""), transactionHash := tx.hash,
                amount := tx.amount, sender := tx.sender, timestamp := now,
                confirmations := 0 })
    ∧ (jsTruthy (l tx.sender) = false → jsTruthy tx.comment = true →
        getUserByMemo (tx.comment.getD ("")) ≠ "" →
        processTransaction l now st tx
          = addPendingDeposit st
              { userId := getUserByMemo (tx.comment.getD ("")), transactionHash := tx.hash,
                amount := tx.amount, sender := tx.sender, timestamp := now,
                confirmations := 0 })
    ∧ (jsTruthy (resolveUserId l tx) = false →
        processTransaction l now st tx = markTransactionProcessed st tx.hash
          ∧ (processTransaction l now st tx).credits = st.credits
          ∧ (processTransaction l now st tx).pendingDeposits = st.pendingDeposits) := by
  refine ⟨?_, ?_, ?_⟩
  · intro ha
    have hres : resolveUserId l tx = l tx.sender := by
      simp [resolveUserId, ha]
    have h5 : jsTruthy (resolveUserId l tx) = true := by rw [hres]; exact ha
    rw [processTransaction_resolved l now st tx h1 h2 h3 h4 h5, hres]
  · intro ha hc hm
    have hres : resolveUserId l tx = some (getUserByMemo (tx.comment.getD (""))) := by
      simp [resolveUserId, ha, hc]
    have h5 : jsTruthy (resolveUserId l tx) = true := by
      rw [hres]
      exact (jsTruthy_some_iff _).mpr hm
    rw [processTransaction_resolved l now st tx h1 h2 h3 h4 h5, hres]
    rfl
  · intro h5
    rw [processTransaction_unresolved l now st tx h1 h2 h3 h4 h5]
    exact ⟨rfl, rfl, rfl⟩

/-- Witness for C7: with `s1` allocated to `alice`, the sample 1 TON
deposit from `s1` is resolved by address and stored pending. -/
theorem deposit_user_resolution_order_witness :
    jsTruthy (oneAddressLookup sampleDepositTx.sender) = true
    ∧ processTransaction oneAddressLookup 0 emptyDepositState sampleDepositTx
        = addPendingDeposit emptyDepositState
            { userId := (oneAddressLookup sampleDepositTx.sender).getD (""),
              transactionHash := sampleDepositTx.hash, amount := sampleDepositTx.amount,
              sender := sampleDepositTx.sender, timestamp := 0, confirmations := 0 } :=
  ⟨by decide,
    (deposit_user_resolution_order oneAddressLookup 0 emptyDepositState sampleDepositTx
      (by decide) (by decide) (by decide) (by decide)).1 (by decide)⟩

/-- C8: the amount gate of `processTransaction` rejects exactly the
amounts below 1,000,000,000 nanotons, and a rejected deposit is marked
processed with no credit and no pending record. -/
theorem deposit_amount_gate (l : String → Option String) (now : Nat)
    (st : DepositState) (tx : Tx)
    (h1 : isTransactionProcessed st tx.hash = false)
    (h2 : tx.isInternal = true) :
    (tx.amount < MIN_DEPOSIT_AMOUNT ↔ tx.amount < 1000000000)
    ∧ (tx.amount < 1000000000 →
        processTransaction l now st tx = markTransactionProcessed st tx.hash
          ∧ (processTransaction l now st tx).credits = st.credits
          ∧ (processTransaction l now st tx).pendingDeposits = st.pendingDeposits) := by
  constructor
  · exact Iff.rfl
  · intro h3
    rw [processTransaction_small l now st tx h1 h2 h3]
    exact ⟨rfl, rfl, rfl⟩

/-- Witness for C8: a fresh 999,999,999 nanoton deposit is rejected and
marked processed. -/
theorem deposit_amount_gate_witness :
    smallDepositTx.amount < 1000000000
    ∧ processTransaction noAddressLookup 0 emptyDepositState smallDepositTx
        = markTransactionProcessed emptyDepositState smallDepositTx.hash :=
  ⟨by decide,
    ((deposit_amount_gate noAddressLookup 0 emptyDepositState smallDepositTx
      (by decide) (by decide)).2 (by decide)).1⟩

/- ## Confirmation advancement: exactly-once crediting -/

theorem keyedBy_mapDelete {α : Type} (key : α → String) (m : List (String × α))
    (k : String) (hwf : KeyedBy key m) : KeyedBy key (mapDelete m k) :=
  ⟨hwf.1.sublist ((mapDelete_sublist m k).map Prod.fst),
    fun p hp => hwf.2 p ((mapDelete_sublist m k).subset hp)⟩

theorem processOnePending_other (now : Nat) (st : DepositState) (d : UserDeposit)
    (h : String) (hne : d.transactionHash ≠ h) :
    creditCount (processOnePending now st d) h = creditCount st h
    ∧ mapGet (processOnePending now st d).pendingDeposits h = mapGet st.pendingDeposits h
    ∧ (h ∈ (processOnePending now st d).processedTxs ↔ h ∈ st.processedTxs) := by
  unfold processOnePending
  by_cases hc : MIN_CONFIRMATIONS ≤ (now - d.timestamp) / 5000
  · simp only [if_pos hc]
    refine ⟨?_, ?_, ?_⟩
    · simp [creditCount, removePendingDeposit, markTransactionProcessed, creditUserAccount,
        List.filter_append, hne]
    · simp only [removePendingDeposit, markTransactionProcessed, creditUserAccount]
      exact mapGet_mapDelete_ne _ h d.transactionHash (Ne.symm hne)
    · simp [removePendingDeposit, markTransactionProcessed, creditUserAccount,
        mem_setAdd_iff, Ne.symm hne]
  · simp [if_neg hc]

theorem processOnePending_wf (now : Nat) (st : DepositState) (d : UserDeposit)
    (hwf : DepositWF st) : DepositWF (processOnePending now st d) := by
  unfold processOnePending
  by_cases hc : MIN_CONFIRMATIONS ≤ (now - d.timestamp) / 5000
  · simp only [if_pos hc]
    exact keyedBy_mapDelete _ _ _ hwf
  · simpa [if_neg hc] using hwf

theorem foldl_processOnePending_other (now : Nat) (h : String) :
    ∀ (L : List UserDeposit) (st : DepositState),
      (∀ e ∈ L, e.transactionHash ≠ h) →
      creditCount (L.foldl (processOnePending now) st) h = creditCount st h
      ∧ mapGet (L.foldl (processOnePending now) st).pendingDeposits h
          = mapGet st.pendingDeposits h
      ∧ (h ∈ (L.foldl (processOnePending now) st).processedTxs ↔ h ∈ st.processedTxs) := by
  intro L
  induction L with
  | nil => intro st _; exact ⟨rfl, rfl, Iff.rfl⟩
  | cons e L ih =>
    intro st hall
    simp only [List.foldl_cons]
    have he := processOnePending_other now st e h (hall e (List.mem_cons_self e L))
    have hrest := ih (processOnePending now st e)
      (fun x hx => hall x (List.mem_cons_of_mem e hx))
    exact ⟨hrest.1.trans he.1, hrest.2.1.trans he.2.1, hrest.2.2.trans he.2.2⟩

theorem foldl_processOnePending_wf (now : Nat) :
    ∀ (L : List UserDeposit) (st : DepositState), DepositWF st →
      DepositWF (L.foldl (processOnePending now) st) := by
  intro L
  induction L with
  | nil => intro st hwf; exact hwf
  | cons e L ih =>
    intro st hwf
    exact ih (processOnePending now st e) (processOnePending_wf now st e hwf)

theorem processPendingDeposits_wf (now : Nat) (st : DepositState) (hwf : DepositWF st) :
    DepositWF (processPendingDeposits now st) :=
  foldl_processOnePending_wf now (getPendingDeposits st) st hwf

theorem processOnePending_fire (now : Nat) (st : DepositState) (d : UserDeposit)
    (hc : MIN_CONFIRMATIONS ≤ (now - d.timestamp) / 5000) :
    creditCount (processOnePending now st d) d.transactionHash
        = creditCount st d.transactionHash + 1
    ∧ mapGet (processOnePending now st d).pendingDeposits d.transactionHash = none
    ∧ d.transactionHash ∈ (processOnePending now st d).processedTxs := by
  unfold processOnePending
  simp only [if_pos hc]
  refine ⟨?_, ?_, ?_⟩
  · simp [creditCount, removePendingDeposit, markTransactionProcessed, creditUserAccount,
      List.filter_append]
  · exact mapGet_mapDelete_self _ _
  · simp only [removePendingDeposit, markTransactionProcessed, creditUserAccount]
    exact setAdd_mem_self _ _

theorem values_hash_ne (st : DepositState) (h : String) (hwf : DepositWF st)
    (hnone : mapGet st.pendingDeposits h = none) :
    ∀ e ∈ getPendingDeposits st, e.transactionHash ≠ h := by
  intro e he heq
  rcases List.mem_map.mp he with ⟨p, hp, hpe⟩
  have hk := hwf.2 p hp
  have : h ∈ st.pendingDeposits.map Prod.fst :=
    List.mem_map.mpr ⟨p, hp, by rw [← hk, hpe]; exact heq⟩
  exact (mapGet_eq_none_iff _ _).mp hnone this

theorem run_preserves_done (now : Nat) (st : DepositState) (h : String)
    (hwf : DepositWF st) (hnone : mapGet st.pendingDeposits h = none) :
    creditCount (processPendingDeposits now st) h = creditCount st h
    ∧ mapGet (processPendingDeposits now st).pendingDeposits h = none
    ∧ (h ∈ (processPendingDeposits now st).processedTxs ↔ h ∈ st.processedTxs) := by
  have hall := values_hash_ne st h hwf hnone
  have hf := foldl_processOnePending_other now h (getPendingDeposits st) st hall
  exact ⟨hf.1, hf.2.1.trans hnone, hf.2.2⟩

theorem runs_preserve_done (h : String) :
    ∀ (ts : List Nat) (st : DepositState), DepositWF st →
      mapGet st.pendingDeposits h = none → h ∈ st.processedTxs →
      creditCount (ts.foldl (fun s t => processPendingDeposits t s) st) h = creditCount st h
      ∧ mapGet (ts.foldl (fun s t => processPendingDeposits t s) st).pendingDeposits h = none
      ∧ h ∈ (ts.foldl (fun s t => processPendingDeposits t s) st).processedTxs := by
  intro ts
  induction ts with
  | nil => intro st _ hnone hmem; exact ⟨rfl, hnone, hmem⟩
  | cons t ts ih =>
    intro st hwf hnone hmem
    simp only [List.foldl_cons]
    have hstep := run_preserves_done t st h hwf hnone
    have hrest := ih (processPendingDeposits t st) (processPendingDeposits_wf t st hwf)
      hstep.2.1 (hstep.2.2.mpr hmem)
    exact ⟨hrest.1.trans hstep.1, hrest.2.1, hrest.2.2⟩

/-- C1: an outstanding deposit record at or past the confirmation threshold
is credited exactly once by the run of `processPendingDeposits` that
sees it: that run applies exactly one more credit for its transaction
hash, marks the hash processed, and removes the record from the pending
set; every later run (at any sequence of times) applies no further
credit, keeps the hash processed, and keeps the record out of the
pending set. -/
theorem deposit_credited_exactly_once (now : Nat) (st : DepositState) (d : UserDeposit)
    (hwf : DepositWF st)
    (hget : mapGet st.pendingDeposits d.transactionHash = some d)
    (hc : MIN_CONFIRMATIONS ≤ (now - d.timestamp) / 5000) :
    creditCount (processPendingDeposits now st) d.transactionHash
        = creditCount st d.transactionHash + 1
    ∧ d.transactionHash ∈ (processPendingDeposits now st).processedTxs
    ∧ mapGet (processPendingDeposits now st).pendingDeposits d.transactionHash = none
    ∧ ∀ ts : List Nat,
        creditCount
            (ts.foldl (fun s t => processPendingDeposits t s) (processPendingDeposits now st))
            d.transactionHash
          = creditCount (processPendingDeposits now st) d.transactionHash
        ∧ d.transactionHash
            ∈ (ts.foldl (fun s t => processPendingDeposits t s)
                (processPendingDeposits now st)).processedTxs
        ∧ mapGet
            (ts.foldl (fun s t => processPendingDeposits t s)
              (processPendingDeposits now st)).pendingDeposits
            d.transactionHash
          = none := by
  have hmem : (d.transactionHash, d) ∈ st.pendingDeposits := mem_of_mapGet_eq_some hget
  rcases List.append_of_mem hmem with ⟨m₁, m₂, hsplit⟩
  have hkeys : (st.pendingDeposits.map Prod.fst).Nodup := hwf.1
  rw [hsplit] at hkeys
  simp only [List.map_append, List.map_cons] at hkeys
  have hnd := List.nodup_append.mp hkeys
  have hk₁ : d.transactionHash ∉ m₁.map Prod.fst := by
    intro hx
    exact hnd.2.2 hx (List.mem_cons_self _ _)
  have hk₂ : d.transactionHash ∉ m₂.map Prod.fst := (List.nodup_cons.mp hnd.2.1).1
  have hall₁ : ∀ e ∈ m₁.map Prod.snd, e.transactionHash ≠ d.transactionHash := by
    intro e he heq
    rcases List.mem_map.mp he with ⟨p, hp, hpe⟩
    have hkey := hwf.2 p (by rw [hsplit]; exact List.mem_append_left _ hp)
    exact hk₁ (List.mem_map.mpr ⟨p, hp, by rw [← hkey, hpe]; exact heq⟩)
  have hall₂ : ∀ e ∈ m₂.map Prod.snd, e.transactionHash ≠ d.transactionHash := by
    intro e he heq
    rcases List.mem_map.mp he with ⟨p, hp, hpe⟩
    have hkey := hwf.2 p
      (by rw [hsplit]; exact List.mem_append_right _ (List.mem_cons_of_mem _ hp))
    exact hk₂ (List.mem_map.mpr ⟨p, hp, by rw [← hkey, hpe]; exact heq⟩)
  have hvals : getPendingDeposits st = m₁.map Prod.snd ++ d :: m₂.map Prod.snd := by
    unfold getPendingDeposits
    rw [hsplit]
    simp
  have hrun :
      creditCount (processPendingDeposits now st) d.transactionHash
          = creditCount st d.transactionHash + 1
      ∧ d.transactionHash ∈ (processPendingDeposits now st).processedTxs
      ∧ mapGet (processPendingDeposits now st).pendingDeposits d.transactionHash = none := by
    unfold processPendingDeposits
    rw [hvals, List.foldl_append, List.foldl_cons]
    have h₁ := foldl_processOnePending_other now d.transactionHash (m₁.map Prod.snd) st hall₁
    have hfire := processOnePending_fire now (List.foldl (processOnePending now) st
      (m₁.map Prod.snd)) d hc
    have h₂ := foldl_processOnePending_other now d.transactionHash (m₂.map Prod.snd)
      (processOnePending now
        (List.foldl (processOnePending now) st (m₁.map Prod.snd)) d) hall₂
    refine ⟨?_, ?_, ?_⟩
    · rw [h₂.1, hfire.1, h₁.1]
    · exact h₂.2.2.mpr hfire.2.2
    · rw [h₂.2.1, hfire.2.1]
  refine ⟨hrun.1, hrun.2.1, hrun.2.2, ?_⟩
  intro ts
  have hr := runs_preserve_done d.transactionHash ts (processPendingDeposits now st)
    (processPendingDeposits_wf now st hwf) hrun.2.2 hrun.2.1
  exact ⟨hr.1, hr.2.2, hr.2.1⟩

/-- Witness for C1: the matured record `dep1` is credited once by a run at
time 20000 and left alone by a later run at time 60000. -/
theorem deposit_credited_exactly_once_witness :
    (MIN_CONFIRMATIONS ≤ (20000 - dep1.timestamp) / 5000)
    ∧ creditCount (processPendingDeposits 20000 pendingOneState) dep1.transactionHash
        = creditCount pendingOneState dep1.transactionHash + 1
    ∧ creditCount
        (List.foldl (fun s t => processPendingDeposits t s)
          (processPendingDeposits 20000 pendingOneState) [60000])
        dep1.transactionHash
      = creditCount (processPendingDeposits 20000 pendingOneState) dep1.transactionHash := by
  refine ⟨by decide, ?_, ?_⟩
  · exact (deposit_credited_exactly_once 20000 pendingOneState dep1
      (by decide) (by decide) (by decide)).1
  · exact (((deposit_credited_exactly_once 20000 pendingOneState dep1
      (by decide) (by decide) (by decide)).2.2.2) [60000]).1

/- ## Query-id sequencer lemmas -/

theorem runNextQueryIds_ok :
    ∀ (n : Nat) (last : HighloadQueryId), last.position + n ≤ QUERY_ID_CEILING →
      runNextQueryIds last n
        = Except.ok
            ((List.range n).map (fun i => { position := last.position + 1 + i }),
              { position := last.position + n }) := by
  intro n
  induction n with
  | zero =>
    intro last h
    simp [runNextQueryIds]
  | succ n ih =>
    intro last h
    have hlt : last.position < QUERY_ID_CEILING := by omega
    have hnext : last.hasNext = true := by
      unfold HighloadQueryId.hasNext
      exact decide_eq_true hlt
    have hih := ih last.getNext
      (by unfold HighloadQueryId.getNext; simp only []; omega)
    unfold runNextQueryIds getNextQueryId
    rw [hnext]
    simp only [if_true]
    rw [hih]
    simp only [HighloadQueryId.getNext]
    refine congrArg Except.ok ?_
    refine Prod.ext ?_ ?_
    · simp only [List.range_succ_eq_map, List.map_cons, List.map_map]
      refine congrArg₂ List.cons (by simp) ?_
      refine List.map_congr_left ?_
      intro i _
      simp only [Function.comp]
      refine congrArg HighloadQueryId.mk ?_
      omega
    · refine congrArg HighloadQueryId.mk ?_
      omega

/-- C2: starting anywhere with capacity for `n` more ids, `n` successive
calls to `getNextQueryId` succeed and return the `n` pairwise-distinct,
strictly increasing ids right after the current position, and any call
made when `hasNext()` is false fails with the exhaustion error instead
of returning an id. -/
theorem query_ids_strictly_increasing (last : HighloadQueryId) (n : Nat)
    (h : last.position + n ≤ QUERY_ID_CEILING) :
    runNextQueryIds last n
        = Except.ok
            ((List.range n).map (fun i => { position := last.position + 1 + i }),
              { position := last.position + n })
    ∧ ((List.range n).map
        (fun i => ({ position := last.position + 1 + i } : HighloadQueryId))).Pairwise
          (fun a b => a.getQueryId < b.getQueryId)
    ∧ ((List.range n).map
        (fun i => ({ position := last.position + 1 + i } : HighloadQueryId))).Nodup
    ∧ ∀ q : HighloadQueryId, q.hasNext = false →
        getNextQueryId q = Except.error (queryIdExhaustedMsg) := by
  have hpair : ((List.range n).map
      (fun i => ({ position := last.position + 1 + i } : HighloadQueryId))).Pairwise
        (fun a b => a.getQueryId < b.getQueryId) := by
    rw [List.pairwise_map]
    exact (List.pairwise_lt_range n).imp
      (fun hij => by simp only [HighloadQueryId.getQueryId]; omega)
  refine ⟨runNextQueryIds_ok n last h, hpair, ?_, ?_⟩
  · exact hpair.imp (fun hab heq => by rw [heq] at hab; exact lt_irrefl _ hab)
  · intro q hq
    unfold getNextQueryId
    rw [hq]
    simp

/-- Witness for C2: with two ids of capacity left, two calls return the
two remaining ids in increasing order, and at the ceiling the next call
fails with the exhaustion error. -/
theorem query_ids_strictly_increasing_witness :
    (8380413 + 2 ≤ QUERY_ID_CEILING)
    ∧ runNextQueryIds { position := 8380413 } 2
        = Except.ok
            ((List.range 2).map (fun i => { position := 8380413 + 1 + i }),
              { position := 8380413 + 2 })
    ∧ getNextQueryId { position := 8380415 } = Except.error (queryIdExhaustedMsg) :=
  ⟨by decide,
    (query_ids_strictly_increasing { position := 8380413 } 2 (by decide)).1,
    (query_ids_strictly_increasing { position := 8380413 } 2 (by decide)).2.2.2
      { position := 8380415 } (by decide)⟩

/- ## Batch-withdrawal lemmas -/

theorem createWithdrawalMessages_go (parseAddr : String → Option String) :
    ∀ (ws : List WithdrawalRequest) (msgs : List OutMsg) (s : WithdrawalState),
      ws.foldl
        (fun acc w =>
          match parseAddr w.address with
          | some dest => (acc.1 ++ [mkWithdrawalMsg dest w], acc.2)
          | none => (acc.1, markWithdrawalFailed acc.2 w.withdrawalId ("Invalid address")))
        (msgs, s)
      = (msgs ++ (ws.filter (fun w => (parseAddr w.address).isSome)).map
            (fun w => mkWithdrawalMsg ((parseAddr w.address).getD ("")) w),
          { s with failedWithdrawals := (s.failedWithdrawals
              ++ (ws.filter (fun w => (parseAddr w.address).isNone)).map
                  (fun w => (w.withdrawalId, "Invalid address"))) }) := by
  intro ws
  induction ws with
  | nil => intro msgs s; simp
  | cons w ws ih =>
    intro msgs s
    cases hp : parseAddr w.address with
    | some dest =>
      simp only [List.foldl_cons, hp]
      rw [ih]
      simp [List.filter_cons, hp, List.append_assoc]
    | none =>
      simp only [List.foldl_cons, hp]
      rw [ih]
      simp [List.filter_cons, hp, markWithdrawalFailed, List.append_assoc]

theorem createWithdrawalMessages_spec (parseAddr : String → Option String)
    (st : WithdrawalState) (ws : List WithdrawalRequest) :
    createWithdrawalMessages parseAddr st ws
      = ((ws.filter (fun w => (parseAddr w.address).isSome)).map
            (fun w => mkWithdrawalMsg ((parseAddr w.address).getD ("")) w),
          { st with failedWithdrawals := (st.failedWithdrawals
              ++ (ws.filter (fun w => (parseAddr w.address).isNone)).map
                  (fun w => (w.withdrawalId, "Invalid address"))) }) := by
  unfold createWithdrawalMessages
  rw [createWithdrawalMessages_go]
  simp

theorem foldl_markCompleted :
    ∀ (ws : List WithdrawalRequest) (s : WithdrawalState),
      ws.foldl (fun s w => markWithdrawalCompleted s w.withdrawalId) s
        = { s with
            processedWithdrawals :=
              ws.foldl (fun ps w => setAdd ps w.withdrawalId) s.processedWithdrawals,
            pendingWithdrawals :=
              ws.foldl (fun m w => mapDelete m w.withdrawalId) s.pendingWithdrawals } := by
  intro ws
  induction ws with
  | nil => intro s; rfl
  | cons w ws ih =>
    intro s
    simp only [List.foldl_cons]
    rw [ih]
    rfl

theorem foldl_setAdd_of_mem_base (x : String) :
    ∀ (xs : List String) (s : List String), x ∈ s → x ∈ xs.foldl setAdd s := by
  intro xs
  induction xs with
  | nil => intro s h; exact h
  | cons y xs ih =>
    intro s h
    exact ih (setAdd s y) (mem_setAdd_of_mem y h)

theorem foldl_setAdd_of_mem (x : String) :
    ∀ (xs : List String) (s : List String), x ∈ xs → x ∈ xs.foldl setAdd s := by
  intro xs
  induction xs with
  | nil => intro s h; exact absurd h (List.not_mem_nil x)
  | cons y xs ih =>
    intro s h
    rcases List.mem_cons.mp h with rfl | hx
    · exact foldl_setAdd_of_mem_base x xs (setAdd s x) (setAdd_mem_self s x)
    · exact ih (setAdd s y) hx

theorem foldl_mapDelete_none {α : Type} (k : String) :
    ∀ (ks : List String) (m : List (String × α)), mapGet m k = none →
      mapGet (ks.foldl mapDelete m) k = none := by
  intro ks
  induction ks with
  | nil => intro m h; exact h
  | cons k' ks ih =>
    intro m h
    exact ih (mapDelete m k') (mapGet_none_mapDelete m k k' h)

theorem foldl_mapDelete_of_mem {α : Type} (k : String) :
    ∀ (ks : List String) (m : List (String × α)), k ∈ ks →
      mapGet (ks.foldl mapDelete m) k = none := by
  intro ks
  induction ks with
  | nil => intro m h; exact absurd h (List.not_mem_nil k)
  | cons k' ks ih =>
    intro m h
    rcases List.mem_cons.mp h with rfl | hk
    · exact foldl_mapDelete_none k ks (mapDelete m k) (mapGet_mapDelete_self m k)
    · exact ih (mapDelete m k') hk

theorem mapDelete_eq_self {α : Type} (m : List (String × α)) (k : String)
    (h : k ∉ m.map Prod.fst) : mapDelete m k = m := by
  unfold mapDelete
  apply List.filter_eq_self.mpr
  intro p hp
  have : p.1 ≠ k := fun he => h (List.mem_map.mpr ⟨p, hp, he⟩)
  exact decide_eq_true this

theorem foldl_delete_prefix {α : Type} :
    ∀ (m₁ m₂ : List (String × α)), ((m₁ ++ m₂).map Prod.fst).Nodup →
      (m₁.map Prod.fst).foldl mapDelete (m₁ ++ m₂) = m₂ := by
  intro m₁
  induction m₁ with
  | nil => intro m₂ h; rfl
  | cons p m₁ ih =>
    intro m₂ h
    have hcons : ((p :: (m₁ ++ m₂)).map Prod.fst).Nodup := by simpa using h
    have hp1 : p.1 ∉ (m₁ ++ m₂).map Prod.fst := by
      have := List.nodup_cons.mp hcons
      simpa using this.1
    have e1 : mapDelete (p :: (m₁ ++ m₂)) p.1 = m₁ ++ m₂ := by
      have e2 := mapDelete_eq_self (m₁ ++ m₂) p.1 hp1
      unfold mapDelete at e2 ⊢
      rw [List.filter_cons]
      simpa using e2
    simp only [List.map_cons, List.foldl_cons, List.cons_append]
    rw [e1]
    exact ih m₂ (by simpa using (List.nodup_cons.mp hcons).2)

/-- C6: one batch-build call converts every request whose destination
parses into an outbound instruction, in order; each request whose
destination fails to parse is excluded from the messages and is the
only one marked failed, with a reason; construction is never aborted
and no other store is touched. -/
theorem withdrawal_parse_failure_isolated (parseAddr : String → Option String)
    (st : WithdrawalState) (ws : List WithdrawalRequest) :
    (createWithdrawalMessages parseAddr st ws).1
        = (ws.filter (fun w => (parseAddr w.address).isSome)).map
            (fun w => mkWithdrawalMsg ((parseAddr w.address).getD ("")) w)
    ∧ (createWithdrawalMessages parseAddr st ws).2.failedWithdrawals
        = st.failedWithdrawals
            ++ (ws.filter (fun w => (parseAddr w.address).isNone)).map
                (fun w => (w.withdrawalId, "Invalid address"))
    ∧ (createWithdrawalMessages parseAddr st ws).2.pendingWithdrawals
        = st.pendingWithdrawals
    ∧ (createWithdrawalMessages parseAddr st ws).2.processedWithdrawals
        = st.processedWithdrawals
    ∧ (createWithdrawalMessages parseAddr st ws).2.lastQueryId = st.lastQueryId
    ∧ (createWithdrawalMessages parseAddr st ws).2.sentBatches = st.sentBatches := by
  rw [createWithdrawalMessages_spec]
  exact ⟨rfl, rfl, rfl, rfl, rfl, rfl⟩

theorem processBatch_ok (parseAddr : String → Option String) (st : WithdrawalState)
    (hne : (getPendingWithdrawals st MAX_BATCH_SIZE).length ≠ 0)
    (hmne : ((getPendingWithdrawals st MAX_BATCH_SIZE).filter
        (fun w => (parseAddr w.address).isSome)).length ≠ 0)
    (hcap : st.lastQueryId.hasNext = true) :
    processBatch parseAddr st
      = Except.ok
          ((getPendingWithdrawals st MAX_BATCH_SIZE).foldl
            (fun s w => markWithdrawalCompleted s w.withdrawalId)
            (sendBatch
              { (createWithdrawalMessages parseAddr st
                  (getPendingWithdrawals st MAX_BATCH_SIZE)).2
                  with lastQueryId := st.lastQueryId.getNext }
              st.lastQueryId.getNext
              (createWithdrawalMessages parseAddr st
                (getPendingWithdrawals st MAX_BATCH_SIZE)).1)) := by
  have hres1len : (createWithdrawalMessages parseAddr st
      (getPendingWithdrawals st MAX_BATCH_SIZE)).1.length ≠ 0 := by
    rw [createWithdrawalMessages_spec]
    simpa using hmne
  have hlast : (createWithdrawalMessages parseAddr st
      (getPendingWithdrawals st MAX_BATCH_SIZE)).2.lastQueryId = st.lastQueryId := by
    rw [createWithdrawalMessages_spec]
  have hq : getNextQueryId (createWithdrawalMessages parseAddr st
        (getPendingWithdrawals st MAX_BATCH_SIZE)).2.lastQueryId
      = Except.ok (st.lastQueryId.getNext, st.lastQueryId.getNext) := by
    rw [hlast]
    unfold getNextQueryId
    rw [hcap]
    simp [HighloadQueryId.getNext]
  simp only [processBatch]
  rw [if_neg hne, if_neg hres1len, hq]

theorem foldl_delete_eq_keys {α : Type} :
    ∀ (ws : List WithdrawalRequest) (m : List (String × α)),
      ws.foldl (fun m w => mapDelete m w.withdrawalId) m
        = (ws.map (fun w => w.withdrawalId)).foldl mapDelete m := by
  intro ws
  induction ws with
  | nil => intro m; rfl
  | cons w ws ih =>
    intro m
    simp only [List.foldl_cons, List.map_cons]
    exact ih (mapDelete m w.withdrawalId)

theorem foldl_setAdd_eq_keys :
    ∀ (ws : List WithdrawalRequest) (s : List String),
      ws.foldl (fun ps w => setAdd ps w.withdrawalId) s
        = (ws.map (fun w => w.withdrawalId)).foldl setAdd s := by
  intro ws
  induction ws with
  | nil => intro s; rfl
  | cons w ws ih =>
    intro s
    simp only [List.foldl_cons, List.map_cons]
    exact ih (setAdd s w.withdrawalId)

/-- C5: from any well-formed state with exactly 300 pending withdrawals,
all of whose destinations parse, and sequencer capacity remaining, one
`processBatch` call succeeds, submits exactly one batch of exactly 254
outbound instructions under exactly one freshly consumed query id, and
leaves exactly the remaining 46 requests pending. -/
theorem batch_of_300 (parseAddr : String → Option String) (st : WithdrawalState)
    (hwf : WithdrawalWF st)
    (hlen : st.pendingWithdrawals.length = 300)
    (hparse : ∀ w ∈ st.pendingWithdrawals.map Prod.snd, (parseAddr w.address).isSome = true)
    (hcap : st.lastQueryId.hasNext = true) :
    ∃ st' msgs,
      processBatch parseAddr st = Except.ok st'
      ∧ msgs.length = 254
      ∧ st'.sentBatches = st.sentBatches ++ [(st.lastQueryId.getNext, msgs)]
      ∧ st'.lastQueryId = st.lastQueryId.getNext
      ∧ st'.pendingWithdrawals = st.pendingWithdrawals.drop 254
      ∧ st'.pendingWithdrawals.length = 46 := by
  have hsub : ∀ w ∈ getPendingWithdrawals st MAX_BATCH_SIZE,
      w ∈ st.pendingWithdrawals.map Prod.snd :=
    fun w hw => List.take_subset _ _ hw
  have hws_parse : ∀ w ∈ getPendingWithdrawals st MAX_BATCH_SIZE,
      (parseAddr w.address).isSome = true := fun w hw => hparse w (hsub w hw)
  have hws_len : (getPendingWithdrawals st MAX_BATCH_SIZE).length = 254 := by
    unfold getPendingWithdrawals
    rw [List.length_take, List.length_map, hlen]
    decide
  have hfs : (getPendingWithdrawals st MAX_BATCH_SIZE).filter
      (fun w => (parseAddr w.address).isSome) = getPendingWithdrawals st MAX_BATCH_SIZE :=
    List.filter_eq_self.mpr hws_parse
  have hfn : (getPendingWithdrawals st MAX_BATCH_SIZE).filter
      (fun w => (parseAddr w.address).isNone) = [] := by
    rw [List.filter_eq_nil_iff]
    intro w hw
    have h := hws_parse w hw
    cases hpw : parseAddr w.address <;> simp_all
  have hcw := createWithdrawalMessages_spec parseAddr st
    (getPendingWithdrawals st MAX_BATCH_SIZE)
  rw [hfs, hfn] at hcw
  simp only [List.map_nil, List.append_nil] at hcw
  have hlen0 : (getPendingWithdrawals st MAX_BATCH_SIZE).length ≠ 0 := by
    rw [hws_len]
    omega
  have hmne : ((getPendingWithdrawals st MAX_BATCH_SIZE).filter
      (fun w => (parseAddr w.address).isSome)).length ≠ 0 := by
    rw [hfs, hws_len]
    omega
  have hkeys : (getPendingWithdrawals st MAX_BATCH_SIZE).map (fun w => w.withdrawalId)
      = (st.pendingWithdrawals.take 254).map Prod.fst := by
    unfold getPendingWithdrawals
    rw [← List.map_take, List.map_map]
    apply List.map_congr_left
    intro p hp
    exact hwf.2 p (List.take_subset _ _ hp)
  have hpend : (getPendingWithdrawals st MAX_BATCH_SIZE).foldl
      (fun m w => mapDelete m w.withdrawalId) st.pendingWithdrawals
      = st.pendingWithdrawals.drop 254 := by
    have hpre := foldl_delete_prefix (st.pendingWithdrawals.take 254)
      (st.pendingWithdrawals.drop 254)
      (by rw [List.take_append_drop]; exact hwf.1)
    rw [List.take_append_drop] at hpre
    rw [foldl_delete_eq_keys, hkeys]
    exact hpre
  have hpb := processBatch_ok parseAddr st hlen0 hmne hcap
  rw [hcw, foldl_markCompleted] at hpb
  simp only [sendBatch] at hpb
  rw [hpend] at hpb
  refine ⟨_, (getPendingWithdrawals st MAX_BATCH_SIZE).map
      (fun w => mkWithdrawalMsg ((parseAddr w.address).getD ("")) w), hpb,
    ?_, ?_, ?_, ?_, ?_⟩
  · rw [List.length_map, hws_len]
  · rfl
  · rfl
  · rfl
  · show (st.pendingWithdrawals.drop 254).length = 46
    rw [List.length_drop, hlen]

theorem wKey_injective : Function.Injective wKey := by
  intro i j h
  have := congrArg (fun s => s.data.length) h
  simpa [wKey] using this

theorem pending300_length : pending300.pendingWithdrawals.length = 300 := by
  simp [pending300, w300]

theorem pending300_wf : WithdrawalWF pending300 := by
  constructor
  · show (w300.map Prod.fst).Nodup
    have e : w300.map Prod.fst = (List.range 300).map wKey := by
      simp only [w300, List.map_map]
      rfl
    rw [e]
    exact (List.nodup_range 300).map wKey_injective
  · intro p hp
    rcases List.mem_map.mp hp with ⟨i, _, rfl⟩
    rfl

/-- Witness for C5: the 300-entry store with universally parsable
addresses yields one 254-message batch under one fresh query id and 46
remaining pending withdrawals. -/
theorem batch_of_300_witness :
    pending300.pendingWithdrawals.length = 300
    ∧ WithdrawalWF pending300
    ∧ ∃ st' msgs,
        processBatch allGoodParse pending300 = Except.ok st'
        ∧ msgs.length = 254
        ∧ st'.sentBatches
            = pending300.sentBatches ++ [(pending300.lastQueryId.getNext, msgs)]
        ∧ st'.lastQueryId = pending300.lastQueryId.getNext
        ∧ st'.pendingWithdrawals = pending300.pendingWithdrawals.drop 254
        ∧ st'.pendingWithdrawals.length = 46 :=
  ⟨pending300_length, pending300_wf,
    batch_of_300 allGoodParse pending300 pending300_wf pending300_length
      (fun _ _ => rfl) (by decide)⟩

/-- C10: whenever `processBatch` sends a batch — some fetched withdrawal
parses (and a query id is available) — every withdrawal fetched in that
call, the unparsable ones it marked failed included, ends up marked
completed and out of the pending set. -/
theorem processBatch_completes_fetched (parseAddr : String → Option String)
    (st : WithdrawalState)
    (hone : ∃ w ∈ getPendingWithdrawals st MAX_BATCH_SIZE,
      (parseAddr w.address).isSome = true)
    (hcap : st.lastQueryId.hasNext = true) :
    ∃ st', processBatch parseAddr st = Except.ok st'
      ∧ ∀ w ∈ getPendingWithdrawals st MAX_BATCH_SIZE,
          w.withdrawalId ∈ st'.processedWithdrawals
          ∧ mapGet st'.pendingWithdrawals w.withdrawalId = none := by
  obtain ⟨w0, hw0, hw0p⟩ := hone
  have hlen0 : (getPendingWithdrawals st MAX_BATCH_SIZE).length ≠ 0 := by
    intro h
    rw [List.length_eq_zero] at h
    rw [h] at hw0
    exact List.not_mem_nil w0 hw0
  have hmne : ((getPendingWithdrawals st MAX_BATCH_SIZE).filter
      (fun w => (parseAddr w.address).isSome)).length ≠ 0 := by
    intro h
    rw [List.length_eq_zero] at h
    have hmem : w0 ∈ (getPendingWithdrawals st MAX_BATCH_SIZE).filter
        (fun w => (parseAddr w.address).isSome) := List.mem_filter.mpr ⟨hw0, hw0p⟩
    rw [h] at hmem
    exact List.not_mem_nil w0 hmem
  have hpb := processBatch_ok parseAddr st hlen0 hmne hcap
  rw [foldl_markCompleted] at hpb
  simp only [sendBatch] at hpb
  rw [foldl_setAdd_eq_keys, foldl_delete_eq_keys] at hpb
  refine ⟨_, hpb, ?_⟩
  intro w hw
  constructor
  · exact foldl_setAdd_of_mem w.withdrawalId
      ((getPendingWithdrawals st MAX_BATCH_SIZE).map (fun x => x.withdrawalId)) _
      (List.mem_map_of_mem _ hw)
  · exact foldl_mapDelete_of_mem w.withdrawalId
      ((getPendingWithdrawals st MAX_BATCH_SIZE).map (fun x => x.withdrawalId)) _
      (List.mem_map_of_mem _ hw)

/-- Witness for C10: with one parsable and one unparsable withdrawal
pending, the batch is sent and both withdrawals — the failed one
included — are marked completed and removed from the pending set. -/
theorem processBatch_completes_fetched_witness :
    twoPendingState.lastQueryId.hasNext = true
    ∧ ∃ st', processBatch oneBadParse twoPendingState = Except.ok st'
        ∧ ∀ w ∈ getPendingWithdrawals twoPendingState MAX_BATCH_SIZE,
            w.withdrawalId ∈ st'.processedWithdrawals
            ∧ mapGet st'.pendingWithdrawals w.withdrawalId = none :=
  ⟨by decide,
    processBatch_completes_fetched oneBadParse twoPendingState
      ⟨{ userId := "u1", address := "good", amount := 5, withdrawalId := "wd1" },
        by decide, by decide⟩
      (by decide)⟩

/- ## Address-generator lemmas -/

theorem findSubwalletGo_not_mem (hashFn : String → Nat → Nat) (baseSubwalletId : Nat)
    (allocated : List Nat) (userId : String) :
    ∀ (remaining nonce s : Nat),
      findSubwalletGo hashFn baseSubwalletId allocated userId nonce remaining = some s →
      s ∉ allocated := by
  intro remaining
  induction remaining with
  | zero => intro nonce s h; simp [findSubwalletGo] at h
  | succ r ih =>
    intro nonce s h
    unfold findSubwalletGo at h
    by_cases hc : subwalletCandidate hashFn baseSubwalletId userId nonce ∈ allocated
    · rw [if_pos hc] at h
      exact ih (nonce + 1) s h
    · rw [if_neg hc] at h
      simp only [Option.some.injEq] at h
      exact h ▸ hc

theorem findSubwalletId_not_mem (hashFn : String → Nat → Nat) (baseSubwalletId : Nat)
    (allocated : List Nat) (userId : String) (nonce s : Nat)
    (h : findSubwalletId hashFn baseSubwalletId allocated userId nonce = some s) :
    s ∉ allocated :=
  findSubwalletGo_not_mem hashFn baseSubwalletId allocated userId _ nonce s h

theorem getAddressForUser_createUserAddress_ne (st : GenState) (u v a : String)
    (s : Nat) (huv : v ≠ u) :
    getAddressForUser (createUserAddress st u a s) v = getAddressForUser st v := by
  unfold getAddressForUser
  simp only [createUserAddress]
  rw [mapGet_mapSet_ne st.userToAddress u v a huv]

/-- C4: after one fresh allocation for `u` and a subsequent fresh
allocation for a distinct user `v`, the stored (subwallet id, address)
pairs of `u` and `v` differ: the collision-resolution loop yields for
`v` a subwallet id distinct from every already-allocated one, so in
particular from the id of `u`. -/
theorem allocate_pairs_distinct (hashFn : String → Nat → Nat) (addrOf : Nat → String)
    (baseSubwalletId : Nat) (st₀ st₁ st₂ : GenState) (u v a₁ a₂ : String)
    (huv : u ≠ v)
    (hfu : getAddressForUser st₀ u = none)
    (hfv : getAddressForUser st₀ v = none)
    (h1 : generateDepositAddress hashFn addrOf baseSubwalletId st₀ u = some (a₁, st₁))
    (h2 : generateDepositAddress hashFn addrOf baseSubwalletId st₁ v = some (a₂, st₂)) :
    ∃ s₁ s₂,
      mapGet st₂.userToSubwalletId u = some s₁
      ∧ mapGet st₂.userToSubwalletId v = some s₂
      ∧ mapGet st₂.userToAddress u = some a₁
      ∧ mapGet st₂.userToAddress v = some a₂
      ∧ s₁ ≠ s₂
      ∧ (s₁, a₁) ≠ (s₂, a₂) := by
  unfold generateDepositAddress at h1
  rw [hfu] at h1
  cases hf1 : findSubwalletId hashFn baseSubwalletId (allocatedSubwalletIds st₀) u 0 with
  | none => rw [hf1] at h1; exact absurd h1 (by simp)
  | some s₁ =>
    rw [hf1] at h1
    simp only [Option.some.injEq, Prod.mk.injEq] at h1
    obtain ⟨ha₁, hst₁⟩ := h1
    have hfv1 : getAddressForUser st₁ v = none := by
      rw [← hst₁, getAddressForUser_createUserAddress_ne st₀ u v _ _ (Ne.symm huv)]
      exact hfv
    unfold generateDepositAddress at h2
    rw [hfv1] at h2
    cases hf2 : findSubwalletId hashFn baseSubwalletId (allocatedSubwalletIds st₁) v 0 with
    | none => rw [hf2] at h2; exact absurd h2 (by simp)
    | some s₂ =>
      rw [hf2] at h2
      simp only [Option.some.injEq, Prod.mk.injEq] at h2
      obtain ⟨ha₂, hst₂⟩ := h2
      have hsub_u : mapGet st₁.userToSubwalletId u = some s₁ := by
        rw [← hst₁]
        simp only [createUserAddress]
        exact mapGet_mapSet_self _ _ _
      have haddr_u : mapGet st₁.userToAddress u = some a₁ := by
        rw [← hst₁, ← ha₁]
        simp only [createUserAddress]
        exact mapGet_mapSet_self _ _ _
      have hall : s₁ ∈ allocatedSubwalletIds st₁ := by
        unfold allocatedSubwalletIds getAllMappings
        apply List.mem_map.mpr
        refine ⟨(u, a₁, s₁), ?_, rfl⟩
        apply List.mem_filterMap.mpr
        refine ⟨(u, a₁), mem_of_mapGet_eq_some haddr_u, ?_⟩
        rw [hsub_u]
        rfl
      have hs₂ : s₂ ∉ allocatedSubwalletIds st₁ :=
        findSubwalletId_not_mem hashFn baseSubwalletId (allocatedSubwalletIds st₁) v 0 s₂ hf2
      have hne12 : s₁ ≠ s₂ := fun heq => hs₂ (heq ▸ hall)
      refine ⟨s₁, s₂, ?_, ?_, ?_, ?_, hne12, ?_⟩
      · rw [← hst₂]
        simp only [createUserAddress]
        rw [mapGet_mapSet_ne st₁.userToSubwalletId v u s₂ huv]
        exact hsub_u
      · rw [← hst₂]
        simp only [createUserAddress]
        exact mapGet_mapSet_self _ _ _
      · rw [← hst₂]
        simp only [createUserAddress]
        rw [mapGet_mapSet_ne st₁.userToAddress v u (addrOf s₂) huv]
        exact haddr_u
      · rw [← hst₂, ← ha₂]
        simp only [createUserAddress]
        exact mapGet_mapSet_self _ _ _
      · intro heq
        exact hne12 (congrArg Prod.fst heq)

/-- Witness for C4: allocating users `x` then `yy` from the empty store
yields the stored pairs (2, ADDR) and (3, ADDR), distinct even under a
constant address stand-in. -/
theorem allocate_pairs_distinct_witness :
    generateDepositAddress demoHash demoAddr 4269 emptyGenState "x"
        = some ("ADDR", genState1)
    ∧ generateDepositAddress demoHash demoAddr 4269 genState1 "yy"
        = some ("ADDR", genState2)
    ∧ ∃ s₁ s₂,
        mapGet genState2.userToSubwalletId "x" = some s₁
        ∧ mapGet genState2.userToSubwalletId "yy" = some s₂
        ∧ mapGet genState2.userToAddress "x" = some "ADDR"
        ∧ mapGet genState2.userToAddress "yy" = some "ADDR"
        ∧ s₁ ≠ s₂
        ∧ (s₁, ("ADDR" : String)) ≠ (s₂, "ADDR") :=
  ⟨by decide, by decide,
    allocate_pairs_distinct demoHash demoAddr 4269 emptyGenState genState1 genState2
      "x" "yy" "ADDR" "ADDR" (by decide) (by decide) (by decide) (by decide) (by decide)⟩

/-- C9: a repeat `generateDepositAddress` call for a user with a stored
(nonempty) address returns that stored address and leaves the store —
the stored subwallet id included — untouched, without re-running the
derivation. -/
theorem allocate_idempotent (hashFn : String → Nat → Nat) (addrOf : Nat → String)
    (baseSubwalletId : Nat) (st : GenState) (userId a : String)
    (ha : mapGet st.userToAddress userId = some a) (hne : a ≠ "") :
    generateDepositAddress hashFn addrOf baseSubwalletId st userId = some (a, st)
    ∧ getAddressForUser st userId = some a := by
  have hget : getAddressForUser st userId = some a := by
    unfold getAddressForUser
    rw [ha]
    simp [hne]
  constructor
  · unfold generateDepositAddress
    rw [hget]
  · exact hget

/-- Witness for C9: a repeat call for user `x` returns the stored address
and state unchanged. -/
theorem allocate_idempotent_witness :
    mapGet genState1.userToAddress "x" = some "ADDR"
    ∧ generateDepositAddress demoHash demoAddr 4269 genState1 "x"
        = some ("ADDR", genState1) :=
  ⟨by decide,
    (allocate_idempotent demoHash demoAddr 4269 genState1 "x" "ADDR"
      (by decide) (by decide)).1⟩
